import Mathlib

/-!
# Verification of the bare-metal conductor core (ironic)

A shallow embedding, in Lean 4, of the parts of the repository that the
specification talks about:

* the node task-lease manager (exclusive leases recorded in the node's
  nullable `reservation` field; the conductor's `task_manager` module is
  not part of the staged sources, so it is modelled from the spec);
* clean-step discovery and ordering (`ironic/drivers/base.py`:
  `BaseInterface.__new__`, `get_clean_steps`, the `clean_step` decorator);
* the vendor-passthru exception wrapper (`ironic/drivers/base.py`:
  `_passthru`);
* driver periodic tasks (`ironic/drivers/base.py`: `driver_periodic_task`);
* the driver capability bundle (`ironic/drivers/base.py`: `BaseDriver`);
* the iLO `parse_driver_info` validator
  (`ironic/drivers/modules/ilo/common.py`);
* the DRAC power interface (`ironic/drivers/modules/drac/power.py`);
* `FlexibleDictField` (`ironic/objects/fields.py`).

Machine-level Python behaviour that the source relies on (the sort inside
`inspect.getmembers`, `int(...)` conversion, `dict(...)` construction,
truthiness) is embedded explicitly, following the documented semantics of
those primitives.
-/

/-- The exceptions the embedded code can raise.  Constructors tagged
`isIronic` below correspond to subclasses of `IronicException`
(`ironic.common.exception`); `keyError`, `typeError` and `valueError`
model the corresponding Python builtin exceptions. -/
inductive PyExc where
  | nodeLocked
  | missingParameterValue (params : List String)
  | invalidParameterValue (params : List String)
  | driverLoadError (params : List String)
  | exclusiveLockRequired
  | vendorPassthruError (msg : String)
  | ironicOther (msg : String)
  | keyError (key : String)
  | typeError (msg : String)
  | valueError (msg : String)
  deriving DecidableEq, Repr

/-- Whether the exception is an `IronicException` (used by the
`except exception.IronicException` clause of `_passthru`). -/
def PyExc.isIronic : PyExc → Bool
  | .keyError _ => false
  | .typeError _ => false
  | .valueError _ => false
  | _ => true

/-- The printable message carried by an exception, as used when `_passthru`
re-wraps a non-ironic exception via `VendorPassthruException(message=e)`. -/
def PyExc.message : PyExc → String
  | .nodeLocked => "Node locked"
  | .missingParameterValue _ => "Missing parameter"
  | .invalidParameterValue _ => "Invalid parameter"
  | .driverLoadError _ => "Driver load error"
  | .exclusiveLockRequired => "Exclusive lock required"
  | .vendorPassthruError m => m
  | .ironicOther m => m
  | .keyError k => k
  | .typeError m => m
  | .valueError m => m

/- ## Task lease manager (modelled from the spec)

`ironic.conductor.task_manager` is not among the staged source files (only
its callers are, e.g. `DracPower` uses `task_manager.require_exclusive_lock`),
so the lease manager is modelled from the spec's words. -/

/-- Modelled from the spec: the per-node lease state kept durably by the
Task Lease Manager (`ironic.conductor.task_manager`, not under the staged
sources).  The spec's data model: a nullable `reservation` holding the one
exclusive holder, and a (possibly empty) collection of shared holders.  We
keep both as lists so that "at most one exclusive holder" is a provable
invariant rather than a typing artifact. -/
structure LeaseState where
  exHolders : List String
  shHolders : List String
  deriving DecidableEq, Repr

/-- A node with no lease held: `reservation` is null. -/
def LeaseState.empty : LeaseState := ⟨[], []⟩

/-- Modelled from the spec: exclusive acquisition succeeds only if the
reservation is null (atomic compare-and-swap on the store); otherwise it
fails with `NodeLocked`. -/
def acquireExclusive (st : LeaseState) (holder : String) :
    Except PyExc LeaseState :=
  if st.exHolders = [] ∧ st.shHolders = [] then
    .ok ⟨[holder], []⟩
  else
    .error .nodeLocked

/-- Modelled from the spec: shared acquisition succeeds if the reservation
is null or only shared holders are registered; an exclusive reservation
always blocks with `NodeLocked`. -/
def acquireShared (st : LeaseState) (holder : String) :
    Except PyExc LeaseState :=
  if st.exHolders = [] then
    .ok ⟨[], holder :: st.shHolders⟩
  else
    .error .nodeLocked

/-- Modelled from the spec: releasing a lease clears this holder's
registration (idempotent: releasing an absent holder changes nothing). -/
def releaseLease (st : LeaseState) (holder : String) : LeaseState :=
  ⟨st.exHolders.filter (fun h => h ≠ holder),
   st.shHolders.filter (fun h => h ≠ holder)⟩

/-- Modelled from the spec: the reclamation sweep clears reservations whose
holder is absent from the live-worker registry. -/
def reclaimLeases (alive : String → Bool) (st : LeaseState) : LeaseState :=
  ⟨st.exHolders.filter alive, st.shHolders.filter alive⟩

/-- The events the lease state of one node can undergo. -/
inductive LeaseEvent where
  | acqEx (holder : String)
  | acqSh (holder : String)
  | rel (holder : String)
  | reclaim (alive : String → Bool)

/-- One event applied to the lease state; a failed acquisition leaves the
state unchanged (the caller got `NodeLocked`). -/
def leaseStep (st : LeaseState) (e : LeaseEvent) : LeaseState :=
  match e with
  | .acqEx h =>
      match acquireExclusive st h with
      | .ok st2 => st2
      | .error _ => st
  | .acqSh h =>
      match acquireShared st h with
      | .ok st2 => st2
      | .error _ => st
  | .rel h => releaseLease st h
  | .reclaim alive => reclaimLeases alive st

/-- The lease state after a whole history of events, starting unreserved. -/
def leaseRun (events : List LeaseEvent) : LeaseState :=
  events.foldl leaseStep LeaseState.empty

/- ## Clean-step discovery (`ironic/drivers/base.py`)

`clean_step(priority)` tags a method with `_is_clean_step = True` and
`_clean_step_priority = priority`.  `BaseInterface.__new__` walks
`inspect.getmembers(instance, inspect.ismethod)` — which returns the
members sorted by name — and records a `{step, priority, interface}`
dictionary for every tagged method. -/

/-- A Python method of an interface class, as far as step discovery looks
at it: its name, whether `clean_step` tagged it (`_is_clean_step`), and
the tagged priority (`_clean_step_priority`). -/
structure PyMethod where
  name : String
  isCleanStep : Bool
  cleanStepPriority : Int
  deriving DecidableEq, Repr

/-- An interface instance: its `interface_type` and its methods in
declaration order. -/
structure IfaceInstance where
  interfaceType : String
  methodsDecl : List PyMethod
  deriving DecidableEq, Repr

/-- The clean-step dictionary built by `BaseInterface.__new__`:
`{'step': name, 'priority': priority, 'interface': interface_type}`. -/
structure CleanStep where
  step : String
  priority : Int
  interface : String
  deriving DecidableEq, Repr

/-- Python's string comparison on the underlying character codes
(lexicographic, byte-wise), as `list.sort()` uses to order member
names. -/
def pyCharsLe : List Char → List Char → Bool
  | [], _ => true
  | _ :: _, [] => false
  | c :: cs, d :: ds =>
      if c.toNat < d.toNat then true
      else if d.toNat < c.toNat then false
      else pyCharsLe cs ds

/-- Python string order, lifted to `String`. -/
def pyStrLe (a b : String) : Bool := pyCharsLe a.toList b.toList

/-- Insert a method into a name-sorted list (helper for the sort that
`inspect.getmembers` performs on the `(name, value)` pairs). -/
def insertByName (m : PyMethod) : List PyMethod → List PyMethod
  | [] => [m]
  | x :: xs =>
      if pyStrLe m.name x.name then m :: x :: xs else x :: insertByName m xs

/-- `inspect.getmembers` returns the class members sorted by name
(`results.sort()` over `(name, value)` pairs). -/
def getMembersByName : List PyMethod → List PyMethod
  | [] => []
  | m :: ms => insertByName m (getMembersByName ms)

/-- `BaseInterface.__new__`: collect a `CleanStep` for every member, in
`inspect.getmembers` order, whose `_is_clean_step` attribute is true. -/
def BaseInterface.cleanSteps (iface : IfaceInstance) : List CleanStep :=
  (getMembersByName iface.methodsDecl).filterMap (fun m =>
    if m.isCleanStep then
      some { step := m.name, priority := m.cleanStepPriority,
             interface := iface.interfaceType }
    else none)

/-- `BaseInterface.get_clean_steps`: returns `self.clean_steps`, the full
unordered list, enabled and disabled steps alike (the `task` argument is
unused by the base implementation). -/
def BaseInterface.getCleanSteps (iface : IfaceInstance) : List CleanStep :=
  BaseInterface.cleanSteps iface

/-- Modelled from the spec: execution-time ordering of clean steps
("Ordered by descending priority at execution time; steps of equal
priority use a stable, deterministic tie-break") — the conductor code
that sorts the discovered steps is not under the staged sources.  Helper:
insert a step into an already ordered list, after every step of strictly
higher priority and before every step of lower or equal priority, which
is exactly what a stable descending sort does. -/
def insertByPriority (s : CleanStep) : List CleanStep → List CleanStep
  | [] => [s]
  | x :: xs =>
      if s.priority < x.priority then x :: insertByPriority s xs
      else s :: x :: xs

/-- Modelled from the spec: stable sort of the discovered steps by
descending priority (insertion sort, processing the list from the right,
so earlier elements of equal priority stay first). -/
def orderStepsByPriority : List CleanStep → List CleanStep
  | [] => []
  | s :: ss => insertByPriority s (orderStepsByPriority ss)

/-- The order in which the steps of an interface execute: the discovered
list, stably sorted by descending priority. -/
def executionOrder (iface : IfaceInstance) : List CleanStep :=
  orderStepsByPriority (BaseInterface.cleanSteps iface)

/- ## iLO `parse_driver_info` (`ironic/drivers/modules/ilo/common.py`) -/

/-- A value of a node's `driver_info` mapping (or an `[ilo]` config value):
either a string or an integer, the two kinds the validator meets. -/
inductive PyVal where
  | vstr (s : String)
  | vint (n : Int)
  deriving DecidableEq, Repr

/-- Digit accumulator for the model of Python's `int(...)` on strings. -/
def digitsToNatAux (acc : Nat) : List Char → Option Nat
  | [] => some acc
  | c :: cs =>
      if c.isDigit then digitsToNatAux (acc * 10 + (c.toNat - 48)) cs
      else none

/-- Python `int(s)` on a string: surrounding whitespace stripped, an
optional sign, then one or more decimal digits; anything else raises
`ValueError` (here: `none`). -/
def strToInt (s : String) : Option Int :=
  let cs := s.toList.dropWhile (fun c => c = ' ')
  let cs := (cs.reverse.dropWhile (fun c => c = ' ')).reverse
  match cs with
  | [] => none
  | '-' :: rest =>
      if rest = [] then none
      else (digitsToNatAux 0 rest).map (fun n => -(n : Int))
  | '+' :: rest =>
      if rest = [] then none
      else (digitsToNatAux 0 rest).map (fun n => (n : Int))
  | rest => (digitsToNatAux 0 rest).map (fun n => (n : Int))

/-- Python `int(value)` for the values `parse_driver_info` feeds it: an
integer passes through, a string is parsed. -/
def pyToInt (v : PyVal) : Option Int :=
  match v with
  | .vint n => some n
  | .vstr s => strToInt s

/-- Python truthiness of a `driver_info` value (`if value:`): a string is
truthy iff non-empty, an integer iff non-zero. -/
def pyTruthy (v : PyVal) : Bool :=
  match v with
  | .vstr s => s ≠ ""
  | .vint n => n ≠ 0

/-- `REQUIRED_PROPERTIES` of the iLO driver: `ilo_address`, `ilo_username`,
`ilo_password`. -/
def iloRequiredProperties : List String :=
  ["ilo_address", "ilo_username", "ilo_password"]

/-- `OPTIONAL_PROPERTIES` of the iLO driver: `client_port`,
`client_timeout`. -/
def iloOptionalProperties : List String :=
  ["client_port", "client_timeout"]

/-- `CONSOLE_PROPERTIES` of the iLO driver: `console_port`. -/
def iloConsoleProperties : List String := ["console_port"]

/-- The `[ilo]` configuration defaults read by
`CONF.ilo.get(param)`: `client_port = 443`, `client_timeout = 60`. -/
def confIlo (param : String) : PyVal :=
  if param = "client_port" then .vint 443
  else if param = "client_timeout" then .vint 60
  else .vstr ""

/-- `ilo.common.parse_driver_info(node)`.  `info` is `node.driver_info`
as an association list.  Mirrors the source: first the required
parameters (collecting the missing ones, raising
`MissingParameterValue` if any), then the optional parameters with their
config fall-back and the truthy `console_port`, coerced with `int()`
(collecting the unconvertible ones, raising `InvalidParameterValue` if
any), finally the assembled `d_info` dictionary. -/
def parse_driver_info (info : List (String × PyVal)) :
    Except PyExc (List (String × PyVal)) :=
  let missing := iloRequiredProperties.filter
    (fun p => (info.lookup p).isNone)
  if missing ≠ [] then
    .error (.missingParameterValue missing)
  else
    let dRequired := iloRequiredProperties.filterMap
      (fun p => (info.lookup p).map (fun v => (p, v)))
    let optConverted := iloOptionalProperties.map
      (fun p => (p, pyToInt ((info.lookup p).getD (confIlo p))))
    let consoleConverted := iloConsoleProperties.filterMap
      (fun p => (info.lookup p).bind (fun v =>
        if pyTruthy v then some (p, pyToInt v) else none))
    let notIntegers := (optConverted ++ consoleConverted).filterMap
      (fun pr => if pr.2.isNone then some pr.1 else none)
    if notIntegers ≠ [] then
      .error (.invalidParameterValue notIntegers)
    else
      .ok (dRequired ++ (optConverted ++ consoleConverted).filterMap
        (fun pr => pr.2.map (fun n => (pr.1, PyVal.vint n))))

/- ## DRAC power interface (`ironic/drivers/modules/drac/power.py`) -/

/-- The power states of `ironic.common.states` that the DRAC driver
handles. -/
inductive PowerState where
  | powerOn
  | powerOff
  | rebootState
  deriving DecidableEq, Repr

/-- `POWER_STATES`: the DRAC `EnabledState` value to ironic power state
mapping (a missing key is Python's `KeyError`, hence `Option`). -/
def POWER_STATES (enabledState : String) : Option PowerState :=
  if enabledState = "2" then some .powerOn
  else if enabledState = "3" then some .powerOff
  else if enabledState = "11" then some .rebootState
  else none

/-- `REVERSE_POWER_STATES`: the inverse mapping, built in the source as
`dict((v, k) for (k, v) in POWER_STATES.items())`. -/
def REVERSE_POWER_STATES (target : PowerState) : String :=
  match target with
  | .powerOn => "2"
  | .powerOff => "3"
  | .rebootState => "11"

/-- A node as the DRAC power code sees it: the `EnabledState` string its
BMC reports for the `DCIM_ComputerSystem` enumeration. -/
structure DracNode where
  enabledState : String
  deriving DecidableEq, Repr

/-- `drac.power._get_power_state(node)`: enumerate `EnabledState` and look
it up in `POWER_STATES` (a value outside the table raises `KeyError`). -/
def dracGetPowerState (node : DracNode) : Except PyExc PowerState :=
  match POWER_STATES node.enabledState with
  | some st => .ok st
  | none => .error (.keyError node.enabledState)

/-- `drac.power._set_power_state(node, target_state)`: invoke
`RequestStateChange` with `RequestedState = REVERSE_POWER_STATES[target]`.
The embedding returns the `RequestedState` code sent to the BMC. -/
def dracSetPowerState (target : PowerState) : String :=
  REVERSE_POWER_STATES target

/-- The body of `DracPower.reboot` (under its lock decorator): read the
current power state; request `REBOOT` if it is `POWER_ON`, else request
`POWER_ON`.  Returns the `RequestedState` code sent. -/
def dracRebootOp (node : DracNode) : Except PyExc String :=
  match dracGetPowerState node with
  | .error e => .error e
  | .ok current =>
      let target :=
        if current = PowerState.powerOn then PowerState.rebootState
        else PowerState.powerOn
      .ok (dracSetPowerState target)

/- ## Exclusive-lock discipline of the DRAC power interface

`DracPower.set_power_state` and `DracPower.reboot` carry the
`@task_manager.require_exclusive_lock` decorator in the source;
`DracPower.get_power_state` does not.  `task_manager` itself is not under
the staged sources, so the decorator is modelled from the spec. -/

/-- Whether a task holds its node's lease shared or exclusive. -/
inductive LeaseKind where
  | sharedLease
  | exclusiveLease
  deriving DecidableEq, Repr

/-- A task context handed to the capability methods: the kind of lease it
holds and the locked node. -/
structure TaskCtx where
  leaseKind : LeaseKind
  node : DracNode
  deriving DecidableEq, Repr

/-- Modelled from the spec: `task_manager.require_exclusive_lock` (module
not under the staged sources) — mutating operations on the node's
driver-owned fields must hold an exclusive lease, so the wrapped method
raises `ExclusiveLockRequired` on a shared task and otherwise runs the
body. -/
def require_exclusive_lock {α : Type}
    (body : TaskCtx → Except PyExc α) (task : TaskCtx) : Except PyExc α :=
  match task.leaseKind with
  | .sharedLease => .error .exclusiveLockRequired
  | .exclusiveLease => body task

/-- `DracPower.get_power_state(task)`: plain call of
`_get_power_state(task.node)`, no lock decorator. -/
def DracPower.get_power_state (task : TaskCtx) : Except PyExc PowerState :=
  dracGetPowerState task.node

/-- `DracPower.set_power_state(task, power_state)`, wrapped by
`require_exclusive_lock`. -/
def DracPower.set_power_state (task : TaskCtx) (target : PowerState) :
    Except PyExc String :=
  require_exclusive_lock (fun _ => .ok (dracSetPowerState target)) task

/-- `DracPower.reboot(task)`, wrapped by `require_exclusive_lock`. -/
def DracPower.reboot (task : TaskCtx) : Except PyExc String :=
  require_exclusive_lock (fun t => dracRebootOp t.node) task

/- ## Vendor passthru wrapper (`_passthru` in `ironic/drivers/base.py`) -/

/-- The outcome of calling a Python function: a value, or a raised
exception. -/
inductive PyOutcome (β : Type) where
  | ret (v : β)
  | exc (e : PyExc)
  deriving DecidableEq, Repr

/-- `passthru_handler`, the wrapper `_passthru` puts around a vendor
method: a normal return passes through; an `IronicException` is logged
and re-raised unchanged (`excutils.save_and_reraise_exception`); any
other exception is logged and re-raised as
`VendorPassthruException(message=e)`. -/
def passthru_handler {α β : Type} (func : α → PyOutcome β) (x : α) :
    PyOutcome β :=
  match func x with
  | .ret v => .ret v
  | .exc e =>
      if e.isIronic then .exc e
      else .exc (.vendorPassthruError e.message)

/- ## Driver periodic tasks (`driver_periodic_task` in
`ironic/drivers/base.py`)

With `parallel=True` (the default) each tick spawns a greenthread whose
body runs `func` under a `BoundedSemaphore` shared by all ticks of that
task, so overlapping ticks queue up and run one after the other; the
periodic loop itself is not blocked.  With `parallel=False` the function
runs inline in the conductor's periodic loop, blocking every other
periodic task while it runs. -/

/-- The runs produced by the semaphore-serialized greenthreads of one
`parallel=True` task: for tick times `ticks` (ascending) and a body of
duration `d`, each tick's run starts as soon as both the tick has fired
and the semaphore is free, and holds the semaphore for `d`.  Returns the
list of `(start, finish)` intervals; `free` is the time the semaphore
becomes available. -/
def semaphoreRuns (d : Nat) : List Nat → Nat → List (Nat × Nat)
  | [], _ => []
  | t :: ts, free =>
      let s := max t free
      (s, s + d) :: semaphoreRuns d ts (s + d)

/-- Modelled from the spec: the skip-if-running tick policy the spec
describes ("an in-flight run suppresses the next scheduled tick for that
task") — a tick arriving while a run is in flight is dropped instead of
queued. -/
def skipPolicyRuns (d : Nat) : List Nat → Nat → List (Nat × Nat)
  | [], _ => []
  | t :: ts, free =>
      if t < free then skipPolicyRuns d ts free
      else (t, t + d) :: skipPolicyRuns d ts (t + d)

/-- How long one tick of the task occupies the conductor's periodic loop:
`parallel=True` spawns a greenthread and returns at once (`0`);
`parallel=False` runs the body inline (`d`), stalling every other
periodic task meanwhile. -/
def driverPeriodicTaskLoopBusy (parallel : Bool) (d : Nat) : Nat :=
  if parallel then 0 else d

/- ## Driver capability bundle (`BaseDriver` in `ironic/drivers/base.py`) -/

/-- `BaseDriver`: the per-driver bundle of capability interface
instances.  Every attribute defaults to `None` in the source; an entry
here is the name of the instantiated implementation. -/
structure BaseDriver where
  power : Option String
  deploy : Option String
  console : Option String
  rescue : Option String
  management : Option String
  vendor : Option String
  inspect : Option String
  deriving DecidableEq, Repr

/-- `BaseDriver.core_interfaces` as the class body builds it: `power`
appended, then `deploy`. -/
def coreInterfaces : List String := ["power", "deploy"]

/-- `BaseDriver.standard_interfaces` as the class body builds it:
`console`, then `management`, then `inspect`; the `rescue` append is
commented out in the source, and `vendor` is never appended. -/
def standardInterfaces : List String := ["console", "management", "inspect"]

/-- `getattr(driver, iface_name, None)` over the interface attributes. -/
def BaseDriver.getIface (d : BaseDriver) (iname : String) : Option String :=
  if iname = "power" then d.power
  else if iname = "deploy" then d.deploy
  else if iname = "console" then d.console
  else if iname = "rescue" then d.rescue
  else if iname = "management" then d.management
  else if iname = "vendor" then d.vendor
  else if iname = "inspect" then d.inspect
  else none

/-- Modelled from the spec: driver loading "fails with `DriverLoadError`
if a mandatory capability (power, deploy) is missing" — the driver
factory performing this check is not under the staged sources.  A loadable
driver must implement all `core` interfaces (`BaseDriver` docstring). -/
def loadDriver (d : BaseDriver) : Except PyExc BaseDriver :=
  let missing := coreInterfaces.filter (fun nm => (d.getIface nm).isNone)
  if missing = [] then .ok d else .error (.driverLoadError missing)

/- ## `FlexibleDictField` (`ironic/objects/fields.py`) -/

/-- A Python literal value, as `ast.literal_eval` can produce and as
`dict(...)` consumes. -/
inductive PyLit where
  | pstr (s : String)
  | pint (n : Int)
  | pnone
  | pdict (kvs : List (PyLit × PyLit))
  | plist (xs : List PyLit)
  | ptuple (xs : List PyLit)

/-- A two-element list or tuple, viewed as a key-value pair (what
`dict(...)` accepts as one item of a pair iterable). -/
def pyAsPair : PyLit → Option (PyLit × PyLit)
  | .plist [a, b] => some (a, b)
  | .ptuple [a, b] => some (a, b)
  | _ => none

/-- The items of `dict(value)`: a mapping gives its items, an iterable of
two-element lists/tuples gives those pairs; anything else raises
`TypeError` (here: `none`). -/
def pyDictItems : PyLit → Option (List (PyLit × PyLit))
  | .pdict kvs => some kvs
  | .plist xs => xs.mapM pyAsPair
  | .ptuple xs => xs.mapM pyAsPair
  | _ => none

/-- `FlexibleDict.coerce(obj, attr, value)`: a string value is first fed
to `ast.literal_eval` (embedded as the abstract evaluator `literalEval`,
`none` for a parse error), then — like every other value — passed to
`dict(...)`. -/
def FlexibleDict.coerce (literalEval : String → Option PyLit)
    (value : PyLit) : Option PyLit :=
  match value with
  | .pstr s => (literalEval s).bind (fun v => (pyDictItems v).map .pdict)
  | v => (pyDictItems v).map .pdict

/-- `FlexibleDictField._null(obj, attr)`: a nullable field reads `{}`
for a null value; a non-nullable field falls through to the library's
`_null`, which raises (`none` here). -/
def FlexibleDictField.nullValue (nullable : Bool) : Option PyLit :=
  if nullable then some (.pdict []) else none

/-- Reading a `FlexibleDictField`: a null stored value goes through
`_null`, any other value through `coerce` (the read path of
`oslo_versionedobjects` fields). -/
def FlexibleDictField.read (literalEval : String → Option PyLit)
    (nullable : Bool) (value : Option PyLit) : Option PyLit :=
  match value with
  | none => FlexibleDictField.nullValue nullable
  | some v => FlexibleDict.coerce literalEval v

/- # Theorems -/

/- ## C1: exclusive-lease mutual exclusion -/

theorem leaseStep_exHolders_le_one (st : LeaseState) (e : LeaseEvent)
    (h : st.exHolders.length ≤ 1) : (leaseStep st e).exHolders.length ≤ 1 := by
  cases e with
  | acqEx holder =>
      by_cases hc : st.exHolders = [] ∧ st.shHolders = []
      · simp [leaseStep, acquireExclusive, hc]
      · simp only [leaseStep, acquireExclusive, hc, if_false]
        exact h
  | acqSh holder =>
      by_cases hc : st.exHolders = []
      · simp [leaseStep, acquireShared, hc]
      · simp only [leaseStep, acquireShared, hc, if_false]
        exact h
  | rel holder =>
      simp only [leaseStep, releaseLease]
      exact le_trans (List.length_filter_le _ _) h
  | reclaim alive =>
      simp only [leaseStep, reclaimLeases]
      exact le_trans (List.length_filter_le _ _) h

theorem leaseRun_exHolders_le_one (events : List LeaseEvent) :
    (leaseRun events).exHolders.length ≤ 1 := by
  suffices h : ∀ st : LeaseState, st.exHolders.length ≤ 1 →
      (events.foldl leaseStep st).exHolders.length ≤ 1 by
    exact h LeaseState.empty (by simp [LeaseState.empty])
  induction events with
  | nil => intro st h; simpa using h
  | cons e es ih =>
      intro st h
      simpa only [List.foldl_cons] using ih _ (leaseStep_exHolders_le_one st e h)

/-- C1: for every node, at any instant (i.e. after any history of
acquire/release/reclaim events starting from an unreserved node) at most
one exclusive lease holder exists; an exclusive acquisition attempted
while any conflicting lease is held — in particular one held and not yet
reclaimable — fails with `NodeLocked`; and of two concurrent exclusive
acquisitions (serialized by the store's atomic conditional update) never
both succeed. -/
theorem c1_exclusive_lease_mutual_exclusion :
    (∀ events : List LeaseEvent, (leaseRun events).exHolders.length ≤ 1)
    ∧ (∀ (st : LeaseState) (holder : String),
        st.exHolders ≠ [] ∨ st.shHolders ≠ [] →
        acquireExclusive st holder = .error .nodeLocked)
    ∧ (∀ (st st1 st2 : LeaseState) (h1 h2 : String),
        acquireExclusive st h1 = .ok st1 →
        acquireExclusive st1 h2 = .ok st2 → False) := by
  refine ⟨leaseRun_exHolders_le_one, ?_, ?_⟩
  · intro st holder hne
    simp only [acquireExclusive]
    rw [if_neg]
    rcases hne with hne | hne
    · exact fun hc => hne hc.1
    · exact fun hc => hne hc.2
  · intro st st1 st2 h1 h2 ha hb
    by_cases hc : st.exHolders = [] ∧ st.shHolders = []
    · simp only [acquireExclusive, hc, if_true] at ha
      cases ha
      simp [acquireExclusive] at hb
    · simp only [acquireExclusive, hc, if_false] at ha
      cases ha

/-- Witness for C1 at a concrete state: while "w1" holds the exclusive
lease, an exclusive acquisition by "w2" fails with `NodeLocked`. -/
theorem c1_exclusive_lease_mutual_exclusion_witness :
    acquireExclusive ⟨["w1"], []⟩ "w2" = .error .nodeLocked :=
  c1_exclusive_lease_mutual_exclusion.2.1 ⟨["w1"], []⟩ "w2"
    (Or.inl (by decide))

/- ## C2: clean-step execution order -/

theorem mem_insertByPriority (s y : CleanStep) (l : List CleanStep) :
    y ∈ insertByPriority s l ↔ y = s ∨ y ∈ l := by
  induction l with
  | nil => simp [insertByPriority]
  | cons x xs ih =>
      by_cases hc : s.priority < x.priority
      · simp only [insertByPriority, hc, if_true, List.mem_cons, ih]
        tauto
      · simp only [insertByPriority, hc, if_false, List.mem_cons]

theorem pairwise_insertByPriority (s : CleanStep) (l : List CleanStep)
    (h : l.Pairwise (fun a b => b.priority ≤ a.priority)) :
    (insertByPriority s l).Pairwise (fun a b => b.priority ≤ a.priority) := by
  induction l with
  | nil => simp [insertByPriority]
  | cons x xs ih =>
      rcases List.pairwise_cons.mp h with ⟨hx, hxs⟩
      by_cases hc : s.priority < x.priority
      · simp only [insertByPriority, hc, if_true]
        refine List.pairwise_cons.mpr ⟨?_, ih hxs⟩
        intro y hy
        rcases (mem_insertByPriority s y xs).mp hy with rfl | hy
        · exact le_of_lt hc
        · exact hx y hy
      · simp only [insertByPriority, hc, if_false]
        refine List.pairwise_cons.mpr ⟨?_, h⟩
        intro y hy
        rcases List.mem_cons.mp hy with rfl | hy
        · exact le_of_not_lt hc
        · exact le_trans (hx y hy) (le_of_not_lt hc)

theorem perm_insertByPriority (s : CleanStep) (l : List CleanStep) :
    (insertByPriority s l).Perm (s :: l) := by
  induction l with
  | nil => simp [insertByPriority]
  | cons x xs ih =>
      by_cases hc : s.priority < x.priority
      · simp only [insertByPriority, hc, if_true]
        exact (ih.cons x).trans (List.Perm.swap s x xs)
      · simp only [insertByPriority, hc, if_false]
        exact List.Perm.refl _

theorem filter_insertByPriority (s : CleanStep) (l : List CleanStep) (p : Int) :
    (insertByPriority s l).filter (fun x => x.priority == p) =
      if s.priority == p then
        s :: l.filter (fun x => x.priority == p)
      else
        l.filter (fun x => x.priority == p) := by
  induction l with
  | nil =>
      by_cases hp : s.priority = p <;>
        simp [insertByPriority, List.filter_cons, hp, beq_iff_eq]
  | cons x xs ih =>
      by_cases hc : s.priority < x.priority
      · simp only [insertByPriority, hc, if_true]
        by_cases hp : s.priority = p
        · have hxp : ¬ x.priority = p := by
            intro hxe
            rw [hxe] at hc
            exact absurd hp (ne_of_lt hc)
          simp [List.filter_cons, hxp, ih, hp, beq_iff_eq]
        · simp [List.filter_cons, ih, hp, beq_iff_eq]
      · simp only [insertByPriority, hc, if_false]
        by_cases hp : s.priority = p <;>
          simp [List.filter_cons, hp, beq_iff_eq]

theorem pairwise_orderStepsByPriority (l : List CleanStep) :
    (orderStepsByPriority l).Pairwise (fun a b => b.priority ≤ a.priority) := by
  induction l with
  | nil => simp [orderStepsByPriority]
  | cons s ss ih => exact pairwise_insertByPriority s _ ih

theorem perm_orderStepsByPriority (l : List CleanStep) :
    (orderStepsByPriority l).Perm l := by
  induction l with
  | nil => simp [orderStepsByPriority]
  | cons s ss ih =>
      exact (perm_insertByPriority s _).trans (ih.cons s)

theorem filter_orderStepsByPriority (l : List CleanStep) (p : Int) :
    (orderStepsByPriority l).filter (fun x => x.priority == p) =
      l.filter (fun x => x.priority == p) := by
  induction l with
  | nil => simp [orderStepsByPriority]
  | cons s ss ih =>
      by_cases hp : s.priority = p
      · simp [orderStepsByPriority, filter_insertByPriority, hp, ih,
          List.filter_cons]
      · simp [orderStepsByPriority, filter_insertByPriority, hp, ih,
          List.filter_cons]

/-- An interface with three clean steps of priorities 10, 50 and 30
(declared in that order). -/
def prioExampleIface : IfaceInstance :=
  ⟨"deploy", [⟨"p1", true, 10⟩, ⟨"p2", true, 50⟩, ⟨"p3", true, 30⟩]⟩

/-- C2 (amended): the execution order of the discovered clean steps is
sorted by descending priority and is a permutation of the discovered
list; steps of equal priority keep their *discovery* order — the order
`inspect.getmembers` yields, i.e. alphabetical by method name — which is
a stable, deterministic tie-break but is not declaration order; for
steps with priorities [10, 50, 30] the execution order is [50, 30, 10]. -/
theorem c2_execution_order_descending_priority :
    (∀ iface : IfaceInstance,
        (executionOrder iface).Pairwise (fun a b => b.priority ≤ a.priority))
    ∧ (∀ iface : IfaceInstance,
        (executionOrder iface).Perm (BaseInterface.cleanSteps iface))
    ∧ (∀ (iface : IfaceInstance) (p : Int),
        (executionOrder iface).filter (fun s => s.priority == p) =
          (BaseInterface.cleanSteps iface).filter (fun s => s.priority == p))
    ∧ (executionOrder prioExampleIface).map (fun s => s.priority) =
        [50, 30, 10] := by
  refine ⟨?_, ?_, ?_, ?_⟩
  · intro iface
    exact pairwise_orderStepsByPriority _
  · intro iface
    exact perm_orderStepsByPriority _
  · intro iface p
    exact filter_orderStepsByPriority _ p
  · decide

/-- An interface declaring two equal-priority clean steps, `zz_step`
before `aa_step`. -/
def tieExampleIface : IfaceInstance :=
  ⟨"deploy", [⟨"zz_step", true, 5⟩, ⟨"aa_step", true, 5⟩]⟩

/-- C2 counterexample: two clean steps of equal priority declared as
`zz_step` then `aa_step` execute as [`aa_step`, `zz_step`] — the
tie-break is the name-sorted `inspect.getmembers` order, not declaration
order as the claim states. -/
theorem c2_counterexample_declaration_order :
    tieExampleIface.methodsDecl.map (fun m => m.name) =
        ["zz_step", "aa_step"]
    ∧ tieExampleIface.methodsDecl.map (fun m => m.cleanStepPriority) = [5, 5]
    ∧ (executionOrder tieExampleIface).map (fun s => s.step) =
        ["aa_step", "zz_step"]
    ∧ (executionOrder tieExampleIface).map (fun s => s.step) ≠
        tieExampleIface.methodsDecl.map (fun m => m.name) := by
  refine ⟨rfl, rfl, ?_, ?_⟩ <;> decide

/- ## C3: clean-step discovery is exactly the tagged methods -/

theorem perm_insertByName (m : PyMethod) (l : List PyMethod) :
    (insertByName m l).Perm (m :: l) := by
  induction l with
  | nil => simp [insertByName]
  | cons x xs ih =>
      by_cases hc : pyStrLe m.name x.name = true
      · simp only [insertByName, hc, if_true]
        exact List.Perm.refl _
      · simp only [insertByName, hc, if_false]
        exact (ih.cons x).trans (List.Perm.swap m x xs)

theorem perm_getMembersByName (l : List PyMethod) :
    (getMembersByName l).Perm l := by
  induction l with
  | nil => simp [getMembersByName]
  | cons m ms ih =>
      exact (perm_insertByName m _).trans (ih.cons m)

/-- The step names produced by discovery over a method list form a
sublist of the method names. -/
theorem discovery_names_sublist (iT : String) (l : List PyMethod) :
    ((l.filterMap (fun m =>
        if m.isCleanStep then
          some { step := m.name, priority := m.cleanStepPriority,
                 interface := iT : CleanStep }
        else none)).map (fun s => s.step)).Sublist
      (l.map (fun m => m.name)) := by
  induction l with
  | nil => simp
  | cons m ms ih =>
      by_cases hc : m.isCleanStep = true
      · simpa [List.filterMap_cons, hc] using ih.cons₂ m.name
      · simp only [Bool.not_eq_true] at hc
        simpa [List.filterMap_cons, hc] using ih.cons m.name

/-- C3: for an interface whose method names are distinct (as the members
of a Python class are), the discovered clean-step list contains the entry
`{step name, priority, interface type}` for every tagged method —
whatever its priority, zero and negative included — and nothing else:
every entry comes from a tagged method, step names are distinct (so each
tagged method yields exactly one entry), no untagged method contributes,
and `get_clean_steps` returns this full list. -/
theorem c3_clean_step_discovery (iface : IfaceInstance)
    (hnodup : (iface.methodsDecl.map (fun m => m.name)).Nodup) :
    (∀ m ∈ iface.methodsDecl, m.isCleanStep = true →
        ({ step := m.name, priority := m.cleanStepPriority,
           interface := iface.interfaceType } : CleanStep) ∈
          BaseInterface.cleanSteps iface)
    ∧ (∀ s ∈ BaseInterface.cleanSteps iface, ∃ m ∈ iface.methodsDecl,
        m.isCleanStep = true ∧
        s = { step := m.name, priority := m.cleanStepPriority,
              interface := iface.interfaceType })
    ∧ ((BaseInterface.cleanSteps iface).map (fun s => s.step)).Nodup
    ∧ (∀ m ∈ iface.methodsDecl, m.isCleanStep = false →
        ∀ s ∈ BaseInterface.cleanSteps iface, s.step ≠ m.name)
    ∧ BaseInterface.getCleanSteps iface = BaseInterface.cleanSteps iface := by
  have hperm := perm_getMembersByName iface.methodsDecl
  have hnodup2 : ((getMembersByName iface.methodsDecl).map
      (fun m => m.name)).Nodup :=
    ((hperm.map (fun m => m.name)).nodup_iff).mpr hnodup
  refine ⟨?_, ?_, ?_, ?_, rfl⟩
  · intro m hm htag
    refine List.mem_filterMap.mpr ⟨m, ?_, ?_⟩
    · exact hperm.mem_iff.mpr hm
    · simp [htag]
  · intro s hs
    rcases List.mem_filterMap.mp hs with ⟨m, hm, hf⟩
    by_cases hc : m.isCleanStep = true
    · refine ⟨m, hperm.mem_iff.mp hm, hc, ?_⟩
      simp only [hc, if_true] at hf
      exact (Option.some_injective _ hf).symm
    · simp only [Bool.not_eq_true] at hc
      simp [hc] at hf
  · exact (discovery_names_sublist iface.interfaceType _).nodup hnodup2
  · intro m hm huntag s hs hname
    rcases List.mem_filterMap.mp hs with ⟨m2, hm2, hf⟩
    by_cases hc : m2.isCleanStep = true
    · simp only [hc, if_true] at hf
      cases hf
      have : m2 = m :=
        List.inj_on_of_nodup_map hnodup (hperm.mem_iff.mp hm2) hm hname
      rw [this] at hc
      rw [huntag] at hc
      cases hc
    · simp only [Bool.not_eq_true] at hc
      simp [hc] at hf

/-- The iLO management interface's tagged steps, as an example instance:
one clean step `reset_ilo` of priority 10. -/
def c3ExampleIface : IfaceInstance :=
  ⟨"management", [⟨"get_properties", false, 0⟩, ⟨"reset_ilo", true, 10⟩]⟩

/-- Witness for C3 at a concrete interface: the tagged method `reset_ilo`
(priority 10) is discovered. -/
theorem c3_clean_step_discovery_witness :
    ({ step := "reset_ilo", priority := 10, interface := "management" } :
      CleanStep) ∈ BaseInterface.cleanSteps c3ExampleIface :=
  (c3_clean_step_discovery c3ExampleIface (by decide)).1
    ⟨"reset_ilo", true, 10⟩ (by decide) rfl

/- ## C4: iLO `parse_driver_info` error discipline -/

/-- All three required iLO parameters are present in `driver_info`. -/
def iloRequiredPresent (info : List (String × PyVal)) : Prop :=
  info.lookup "ilo_address" ≠ none ∧ info.lookup "ilo_username" ≠ none
    ∧ info.lookup "ilo_password" ≠ none

/-- Some integer coercion performed by `parse_driver_info` fails: an
optional parameter (after the config fall-back) is not convertible, or a
*truthy* supplied `console_port` is not convertible. -/
def iloBadValues (info : List (String × PyVal)) : Prop :=
  pyToInt ((info.lookup "client_port").getD (confIlo "client_port")) = none
  ∨ pyToInt ((info.lookup "client_timeout").getD (confIlo "client_timeout"))
      = none
  ∨ ∃ v, info.lookup "console_port" = some v ∧ pyTruthy v = true
      ∧ pyToInt v = none

theorem parse_missing_iff (info : List (String × PyVal)) :
    (∃ ps, parse_driver_info info = .error (.missingParameterValue ps)) ↔
      (info.lookup "ilo_address" = none ∨ info.lookup "ilo_username" = none
        ∨ info.lookup "ilo_password" = none) := by
  rcases hA : info.lookup "ilo_address" with _ | vA <;>
    rcases hU : info.lookup "ilo_username" with _ | vU <;>
      rcases hP : info.lookup "ilo_password" with _ | vP <;>
        (simp only [parse_driver_info, iloRequiredProperties,
           iloOptionalProperties, iloConsoleProperties, hA, hU, hP,
           List.filter_cons, List.filter_nil, Option.isNone_none,
           Option.isNone_some, if_true, if_false, cond_true, cond_false]
         simp
         try (split <;> simp))

/-- Proof-support restatement of the second phase of
`parse_driver_info` (the integer-coercion phase), abstracted over the
already-collected required entries and the `(param, int(value))`
coercion results. -/
def iloStage2 (dreq : List (String × PyVal))
    (converted : List (String × Option Int)) :
    Except PyExc (List (String × PyVal)) :=
  let notIntegers := converted.filterMap
    (fun pr => if pr.2.isNone then some pr.1 else none)
  if notIntegers ≠ [] then .error (.invalidParameterValue notIntegers)
  else
    .ok (dreq ++ converted.filterMap
      (fun pr => pr.2.map (fun n => (pr.1, PyVal.vint n))))

/-- The coercion results `parse_driver_info` accumulates once the
required parameters are present: both optional parameters (with config
fall-back) and, when supplied truthy, `console_port`. -/
def iloConverted (info : List (String × PyVal)) :
    List (String × Option Int) :=
  [("client_port",
     pyToInt ((info.lookup "client_port").getD (confIlo "client_port"))),
   ("client_timeout",
     pyToInt ((info.lookup "client_timeout").getD (confIlo "client_timeout")))]
  ++ (match info.lookup "console_port" with
      | none => []
      | some v => if pyTruthy v then [("console_port", pyToInt v)] else [])

theorem parse_eq_stage2 (info : List (String × PyVal))
    (vA vU vP : PyVal)
    (hA : info.lookup "ilo_address" = some vA)
    (hU : info.lookup "ilo_username" = some vU)
    (hP : info.lookup "ilo_password" = some vP) :
    parse_driver_info info =
      iloStage2
        [("ilo_address", vA), ("ilo_username", vU), ("ilo_password", vP)]
        (iloConverted info) := by
  rcases hC : info.lookup "console_port" with _ | vC
  · simp [parse_driver_info, iloStage2, iloConverted,
      iloRequiredProperties, iloOptionalProperties, iloConsoleProperties,
      hA, hU, hP, hC, List.filter_cons, List.filterMap_cons]
  · by_cases htr : pyTruthy vC = true <;>
      simp [parse_driver_info, iloStage2, iloConverted,
        iloRequiredProperties, iloOptionalProperties, iloConsoleProperties,
        hA, hU, hP, hC, htr, List.filter_cons, List.filterMap_cons]

theorem stage2_invalid_iff (dreq : List (String × PyVal))
    (converted : List (String × Option Int)) :
    (∃ ps, iloStage2 dreq converted = .error (.invalidParameterValue ps)) ↔
      ∃ pr ∈ converted, pr.2 = none := by
  have hiff : converted.filterMap
      (fun pr => if pr.2.isNone then some pr.1 else none) = [] ↔
      ¬ ∃ pr ∈ converted, pr.2 = none := by
    rw [List.filterMap_eq_nil_iff]
    constructor
    · rintro hall ⟨pr, hpr, hnone⟩
      have := hall pr hpr
      simp [hnone] at this
    · intro hno pr hpr
      rcases hb : pr.2 with _ | n
      · exact absurd ⟨pr, hpr, hb⟩ hno
      · simp [hb]
  by_cases hni : converted.filterMap
      (fun pr => if pr.2.isNone then some pr.1 else none) = []
  · simp only [iloStage2]
    rw [if_neg (fun hx => hx hni)]
    constructor
    · rintro ⟨ps, hps⟩
      cases hps
    · intro hex
      exact absurd hex (hiff.mp hni)
  · simp only [iloStage2]
    rw [if_pos hni]
    constructor
    · intro _
      by_contra hno
      exact hni (hiff.mpr hno)
    · intro _
      exact ⟨_, rfl⟩

theorem stage2_ok_eq (dreq : List (String × PyVal))
    (converted : List (String × Option Int)) (d : List (String × PyVal))
    (hok : iloStage2 dreq converted = .ok d) :
    d = dreq ++ converted.filterMap
      (fun pr => pr.2.map (fun n => (pr.1, PyVal.vint n))) := by
  simp only [iloStage2] at hok
  split at hok
  · cases hok
  · cases hok
    rfl

theorem converted_none_iff (info : List (String × PyVal)) :
    (∃ pr ∈ iloConverted info, pr.2 = none) ↔ iloBadValues info := by
  rcases hC : info.lookup "console_port" with _ | vC
  · simp [iloConverted, iloBadValues, hC]
  · by_cases htr : pyTruthy vC = true
    · simp [iloConverted, iloBadValues, hC, htr]
    · simp [iloConverted, iloBadValues, hC, htr]

theorem stage2_cases (dreq : List (String × PyVal))
    (converted : List (String × Option Int)) :
    (∃ ps, iloStage2 dreq converted = .error (.invalidParameterValue ps))
    ∨ ∃ d, iloStage2 dreq converted = .ok d := by
  simp only [iloStage2]
  split
  · exact Or.inl ⟨_, rfl⟩
  · exact Or.inr ⟨_, rfl⟩

/-- C4 (amended): `parse_driver_info` raises `MissingParameterValue`
exactly when a required parameter (`ilo_address`, `ilo_username`,
`ilo_password`) is absent from `driver_info` — taking precedence over any
value problem; with all required parameters present it raises
`InvalidParameterValue` exactly when an optional parameter
(`client_port`, `client_timeout`, after the config fall-back) or a
supplied *truthy* `console_port` value is not convertible to an integer
(a falsy supplied `console_port`, e.g. the empty string, is skipped, not
rejected); otherwise it returns a dict carrying all required values. -/
theorem c4_parse_driver_info_errors (info : List (String × PyVal)) :
    ((∃ ps, parse_driver_info info = .error (.missingParameterValue ps)) ↔
        ¬ iloRequiredPresent info)
    ∧ (iloRequiredPresent info →
        ((∃ ps, parse_driver_info info =
            .error (.invalidParameterValue ps)) ↔ iloBadValues info))
    ∧ (∀ d, parse_driver_info info = .ok d →
        d.lookup "ilo_address" = info.lookup "ilo_address"
        ∧ d.lookup "ilo_username" = info.lookup "ilo_username"
        ∧ d.lookup "ilo_password" = info.lookup "ilo_password")
    ∧ (iloRequiredPresent info → ¬ iloBadValues info →
        ∃ d, parse_driver_info info = .ok d) := by
  refine ⟨?_, ?_, ?_, ?_⟩
  · rw [parse_missing_iff info]
    unfold iloRequiredPresent
    tauto
  · rintro ⟨hA0, hU0, hP0⟩
    rcases Option.ne_none_iff_exists'.mp hA0 with ⟨vA, hA⟩
    rcases Option.ne_none_iff_exists'.mp hU0 with ⟨vU, hU⟩
    rcases Option.ne_none_iff_exists'.mp hP0 with ⟨vP, hP⟩
    rw [parse_eq_stage2 info vA vU vP hA hU hP, stage2_invalid_iff,
      converted_none_iff]
  · intro d hok
    have hnm : ¬(info.lookup "ilo_address" = none
        ∨ info.lookup "ilo_username" = none
        ∨ info.lookup "ilo_password" = none) := by
      intro hor
      rcases (parse_missing_iff info).mpr hor with ⟨ps, hps⟩
      rw [hok] at hps
      cases hps
    push_neg at hnm
    rcases hnm with ⟨hA0, hU0, hP0⟩
    rcases Option.ne_none_iff_exists'.mp hA0 with ⟨vA, hA⟩
    rcases Option.ne_none_iff_exists'.mp hU0 with ⟨vU, hU⟩
    rcases Option.ne_none_iff_exists'.mp hP0 with ⟨vP, hP⟩
    rw [parse_eq_stage2 info vA vU vP hA hU hP] at hok
    rw [stage2_ok_eq _ _ d hok, hA, hU, hP]
    refine ⟨?_, ?_, ?_⟩ <;> simp [List.lookup]
  · rintro ⟨hA0, hU0, hP0⟩ hbad
    rcases Option.ne_none_iff_exists'.mp hA0 with ⟨vA, hA⟩
    rcases Option.ne_none_iff_exists'.mp hU0 with ⟨vU, hU⟩
    rcases Option.ne_none_iff_exists'.mp hP0 with ⟨vP, hP⟩
    rw [parse_eq_stage2 info vA vU vP hA hU hP]
    rcases stage2_cases
        [("ilo_address", vA), ("ilo_username", vU), ("ilo_password", vP)]
        (iloConverted info) with hinv | hok
    · rw [stage2_invalid_iff, converted_none_iff] at hinv
      exact absurd hinv hbad
    · exact hok

/-- A `driver_info` with all required iLO parameters and a supplied but
falsy (empty-string) `console_port`. -/
def c4Info : List (String × PyVal) :=
  [("ilo_address", .vstr "1.2.3.4"), ("ilo_username", .vstr "admin"),
   ("ilo_password", .vstr "fake"), ("console_port", .vstr "")]

/-- C4 counterexample: `console_port` is supplied as `""`, which is not
convertible to an integer, yet `parse_driver_info` succeeds (the source
guards the conversion with `if value:`, so a falsy supplied value is
skipped) — refuting "raises `InvalidParameterValue` exactly when ... a
supplied `console_port` value is not convertible to an integer". -/
theorem c4_counterexample_falsy_console_port :
    c4Info.lookup "console_port" = some (.vstr "")
    ∧ pyToInt (.vstr "") = none
    ∧ parse_driver_info c4Info = .ok
        [("ilo_address", .vstr "1.2.3.4"), ("ilo_username", .vstr "admin"),
         ("ilo_password", .vstr "fake"), ("client_port", .vint 443),
         ("client_timeout", .vint 60)] :=
  ⟨rfl, rfl, rfl⟩

/-- Witness for C4 at a concrete input: with `ilo_address` absent,
`parse_driver_info` raises `MissingParameterValue`. -/
theorem c4_parse_driver_info_errors_witness :
    ∃ ps, parse_driver_info [("ilo_username", PyVal.vstr "admin")] =
      .error (.missingParameterValue ps) :=
  (c4_parse_driver_info_errors [("ilo_username", PyVal.vstr "admin")]).1.mpr
    (by simp [iloRequiredPresent])

/- ## C5: lock discipline of the DRAC power operations -/

/-- C5: the mutating DRAC power operations — `set_power_state` and
`reboot`, both carrying `@task_manager.require_exclusive_lock` in the
source — execute only while an exclusive lease is held: they succeed only
on an exclusive task and fail with `ExclusiveLockRequired` on a shared
task; the read-only `get_power_state` carries no such decorator and its
result does not depend on the kind of lease held. -/
theorem c5_mutating_power_needs_exclusive_lease :
    (∀ (task : TaskCtx) (target : PowerState),
        (∃ r, DracPower.set_power_state task target = .ok r) →
        task.leaseKind = .exclusiveLease)
    ∧ (∀ task : TaskCtx, (∃ r, DracPower.reboot task = .ok r) →
        task.leaseKind = .exclusiveLease)
    ∧ (∀ (task : TaskCtx) (target : PowerState),
        task.leaseKind = .sharedLease →
        DracPower.set_power_state task target =
            .error .exclusiveLockRequired
        ∧ DracPower.reboot task = .error .exclusiveLockRequired)
    ∧ (∀ (node : DracNode) (k : LeaseKind),
        DracPower.get_power_state ⟨k, node⟩ =
          DracPower.get_power_state ⟨LeaseKind.exclusiveLease, node⟩) := by
  refine ⟨?_, ?_, ?_, ?_⟩
  · rintro ⟨k, node⟩ target ⟨r, hr⟩
    cases k
    · simp [DracPower.set_power_state, require_exclusive_lock] at hr
    · rfl
  · rintro ⟨k, node⟩ ⟨r, hr⟩
    cases k
    · simp [DracPower.reboot, require_exclusive_lock] at hr
    · rfl
  · rintro ⟨k, node⟩ target hk
    cases hk
    exact ⟨rfl, rfl⟩
  · intro node k
    rfl

/- ## C6: the vendor-passthru exception wrapper -/

/-- C6: for every wrapped vendor method and input, `passthru_handler`
returns normal values unchanged, re-raises `IronicException`s unchanged,
re-raises any other exception as a typed `VendorPassthruException`
carrying the original message — and consequently every exception leaving
the wrapper is an ironic one. -/
theorem c6_passthru_exception_policy (α β : Type)
    (func : α → PyOutcome β) (x : α) :
    (∀ v, func x = .ret v → passthru_handler func x = .ret v)
    ∧ (∀ e, e.isIronic = true → func x = .exc e →
        passthru_handler func x = .exc e)
    ∧ (∀ e, e.isIronic = false → func x = .exc e →
        passthru_handler func x = .exc (.vendorPassthruError e.message))
    ∧ (∀ e2, passthru_handler func x = .exc e2 → e2.isIronic = true) := by
  refine ⟨?_, ?_, ?_, ?_⟩
  · intro v hv
    simp [passthru_handler, hv]
  · intro e hir he
    simp [passthru_handler, he, hir]
  · intro e hir he
    simp [passthru_handler, he, hir]
  · intro e2 h2
    rcases hf : func x with v | e
    · simp [passthru_handler, hf] at h2
    · by_cases hir : e.isIronic = true
      · simp only [passthru_handler, hf, hir, if_true] at h2
        cases h2
        exact hir
      · simp only [Bool.not_eq_true] at hir
        simp only [passthru_handler, hf, hir, Bool.false_eq_true,
          if_false] at h2
        cases h2
        rfl

/- ## C9: DRAC reboot of a powered-off node powers it on -/

/-- C9: `DracPower.reboot` first reads the current power state; when it
is `POWER_ON` it requests the `REBOOT` state change (DRAC code `"11"`),
and in every other case it requests `POWER_ON` (DRAC code `"2"`) — so
rebooting a powered-off node powers it on instead of issuing a reboot;
under an exclusive lease the task-level `reboot` runs exactly this
body. -/
theorem c9_drac_reboot_powers_on_when_off (node : DracNode)
    (current : PowerState)
    (hcur : dracGetPowerState node = .ok current) :
    (current = PowerState.powerOn → dracRebootOp node = .ok "11")
    ∧ (current ≠ PowerState.powerOn → dracRebootOp node = .ok "2")
    ∧ REVERSE_POWER_STATES PowerState.rebootState = "11"
    ∧ REVERSE_POWER_STATES PowerState.powerOn = "2"
    ∧ POWER_STATES "11" = some PowerState.rebootState
    ∧ POWER_STATES "2" = some PowerState.powerOn
    ∧ (∀ k : LeaseKind, k = LeaseKind.exclusiveLease →
        DracPower.reboot ⟨k, node⟩ = dracRebootOp node) := by
  refine ⟨?_, ?_, rfl, rfl, rfl, rfl, ?_⟩
  · intro hon
    simp [dracRebootOp, hcur, hon, dracSetPowerState, REVERSE_POWER_STATES]
  · intro hnot
    simp [dracRebootOp, hcur, hnot, dracSetPowerState, REVERSE_POWER_STATES]
  · intro k hk
    cases hk
    rfl

/-- Witness for C9 at a concrete node: the BMC reports `EnabledState = 3`
(`POWER_OFF`), and `reboot` requests state change `"2"` (`POWER_ON`). -/
theorem c9_drac_reboot_powers_on_when_off_witness :
    dracRebootOp ⟨"3"⟩ = .ok "2" :=
  (c9_drac_reboot_powers_on_when_off ⟨"3"⟩ PowerState.powerOff rfl).2.1
    (by decide)

/- ## C7: driver periodic task semantics -/

theorem semaphoreRuns_length (d : Nat) (ticks : List Nat) (free : Nat) :
    (semaphoreRuns d ticks free).length = ticks.length := by
  induction ticks generalizing free with
  | nil => rfl
  | cons t ts ih => simp [semaphoreRuns, ih]

theorem semaphoreRuns_start_ge (d : Nat) (ticks : List Nat) (free : Nat) :
    ∀ r ∈ semaphoreRuns d ticks free, free ≤ r.1 := by
  induction ticks generalizing free with
  | nil =>
      intro r hr
      cases hr
  | cons t ts ih =>
      intro r hr
      simp only [semaphoreRuns, List.mem_cons] at hr
      rcases hr with rfl | hr
      · exact le_max_right t free
      · exact le_trans
          (le_trans (le_max_right t free) (Nat.le_add_right _ d))
          (ih _ r hr)

theorem semaphoreRuns_serialized (d : Nat) (ticks : List Nat) (free : Nat) :
    (semaphoreRuns d ticks free).Chain' (fun a b => a.2 ≤ b.1) := by
  induction ticks generalizing free with
  | nil => simp [semaphoreRuns]
  | cons t ts ih =>
      simp only [semaphoreRuns]
      rw [List.chain'_cons']
      refine ⟨?_, ih _⟩
      intro b hb
      exact semaphoreRuns_start_ge d ts (max t free + d) b
        (List.mem_of_mem_head? hb)

/-- C7 (amended): a driver periodic task never runs concurrently with
itself — its runs are serialized by the per-task semaphore — but an
in-flight run *delays* subsequent ticks (they queue on the semaphore)
rather than suppressing them: every tick produces exactly one run.  A
`parallel=True` task spawns its body into a separate greenthread and
occupies the conductor's periodic loop for no time, while a
`parallel=False` task runs inline and blocks all other periodic tasks
for its whole duration. -/
theorem c7_periodic_task_serialized_not_skipped :
    (∀ (d : Nat) (ticks : List Nat) (free : Nat),
        (semaphoreRuns d ticks free).length = ticks.length)
    ∧ (∀ (d : Nat) (ticks : List Nat) (free : Nat),
        (semaphoreRuns d ticks free).Chain' (fun a b => a.2 ≤ b.1))
    ∧ (∀ d : Nat, driverPeriodicTaskLoopBusy true d = 0)
    ∧ (∀ d : Nat, driverPeriodicTaskLoopBusy false d = d) :=
  ⟨semaphoreRuns_length, semaphoreRuns_serialized,
   fun _ => rfl, fun _ => rfl⟩

/-- C7 counterexample: with a body of duration 2 and ticks at times 0
and 1, the semaphore semantics of `driver_periodic_task` runs the body
twice — at [0,2) and queued at [2,4) — whereas the claimed
skip-if-running policy would suppress the second tick and run once;
the next scheduled tick is thus delayed, not skipped. -/
theorem c7_counterexample_tick_queued_not_skipped :
    semaphoreRuns 2 [0, 1] 0 = [(0, 2), (2, 4)]
    ∧ skipPolicyRuns 2 [0, 1] 0 = [(0, 2)]
    ∧ (semaphoreRuns 2 [0, 1] 0).length ≠ (skipPolicyRuns 2 [0, 1] 0).length
    := by
  refine ⟨rfl, rfl, ?_⟩
  decide

/- ## C8: mandatory and optional driver capabilities -/

/-- C8: `power` and `deploy` are exactly the core (mandatory) driver
interfaces — a driver bundle missing either fails to load with
`DriverLoadError`, and one providing both loads — while `console`,
`rescue`, `management`, `inspect` and `vendor` are optional (a bundle
with all of them `None` still loads). -/
theorem c8_core_capabilities_power_deploy :
    coreInterfaces = ["power", "deploy"]
    ∧ "console" ∉ coreInterfaces ∧ "rescue" ∉ coreInterfaces
    ∧ "management" ∉ coreInterfaces ∧ "inspect" ∉ coreInterfaces
    ∧ "vendor" ∉ coreInterfaces
    ∧ (∀ d : BaseDriver,
        (∃ ps, loadDriver d = .error (.driverLoadError ps)) ↔
          (d.power = none ∨ d.deploy = none))
    ∧ loadDriver
        { power := some "fake_power", deploy := some "fake_deploy",
          console := none, rescue := none, management := none,
          vendor := none, inspect := none } =
      .ok { power := some "fake_power", deploy := some "fake_deploy",
            console := none, rescue := none, management := none,
            vendor := none, inspect := none } := by
  refine ⟨rfl, by decide, by decide, by decide, by decide, by decide,
    ?_, rfl⟩
  intro d
  rcases hp : d.power with _ | ip <;>
    rcases hd : d.deploy with _ | id <;>
      simp [loadDriver, coreInterfaces, BaseDriver.getIface, hp, hd,
        List.filter_cons, List.filter_nil]

/- ## C10: `FlexibleDictField` always observes a dict -/

/-- C10: through a nullable `FlexibleDictField`, a null stored value
reads as the empty dict `{}` (not `None`); a string value is coerced by
parsing it as a Python literal and passing the result to `dict(...)`;
and every value successfully read through the field is a dict. -/
theorem c10_flexible_dict_field_reads_dicts
    (literalEval : String → Option PyLit) :
    FlexibleDictField.read literalEval true none = some (.pdict [])
    ∧ (∀ s v, literalEval s = some v →
        FlexibleDict.coerce literalEval (.pstr s) =
          (pyDictItems v).map .pdict)
    ∧ (∀ s, literalEval s = none →
        FlexibleDict.coerce literalEval (.pstr s) = none)
    ∧ (∀ (v : Option PyLit) (r : PyLit),
        FlexibleDictField.read literalEval true v = some r →
        ∃ kvs, r = .pdict kvs) := by
  refine ⟨rfl, ?_, ?_, ?_⟩
  · intro s v hv
    simp [FlexibleDict.coerce, hv]
  · intro s hv
    simp [FlexibleDict.coerce, hv]
  · intro v r hr
    rcases v with _ | v
    · simp only [FlexibleDictField.read, FlexibleDictField.nullValue,
        if_true] at hr
      cases hr
      exact ⟨[], rfl⟩
    · rcases v with s | n | _ | kvs | xs | xs
      · have hr2 : (literalEval s).bind
            (fun w => (pyDictItems w).map PyLit.pdict) = some r := hr
        rcases he : literalEval s with _ | w
        · rw [he] at hr2
          cases hr2
        · rw [he] at hr2
          have hr3 : (pyDictItems w).map PyLit.pdict = some r := hr2
          rcases Option.map_eq_some'.mp hr3 with ⟨kvs, _, rfl⟩
          exact ⟨kvs, rfl⟩
      · have hr2 : (none : Option PyLit) = some r := hr
        cases hr2
      · have hr2 : (none : Option PyLit) = some r := hr
        cases hr2
      · have hr2 : some (PyLit.pdict kvs) = some r := hr
        cases hr2
        exact ⟨kvs, rfl⟩
      · have hr2 : (xs.mapM pyAsPair).map PyLit.pdict = some r := hr
        rcases Option.map_eq_some'.mp hr2 with ⟨kvs2, _, rfl⟩
        exact ⟨kvs2, rfl⟩
      · have hr2 : (xs.mapM pyAsPair).map PyLit.pdict = some r := hr
        rcases Option.map_eq_some'.mp hr2 with ⟨kvs2, _, rfl⟩
        exact ⟨kvs2, rfl⟩
